import Mathlib

/-!
Shallow embedding of the Go package `trending` (neodb-trending-history).
The Go source fetches trending listings from NeoDB-like instances, snapshots
raw JSON payloads into a dated directory tree, and appends Markdown tables
to per-day README files.  Pure logic (host sanitizing, slug derivation,
entry extraction from parsed JSON, cell/table rendering, path construction,
and the per-host orchestration accumulator) is translated here; HTTP and
filesystem effects are represented by explicit inputs (fetch results,
previous file contents) and outputs (path strings, file contents).
-/

namespace Trending

/-- Result of Go's `json.Unmarshal` into `any`: a dynamic JSON value.
Numbers are carried abstractly as `Int` (the extractor only ever type-asserts
values to `string`, `[]any` or `map[string]any`, so the numeric payload is
never inspected).  Objects are association lists of key/value pairs (Go map
with unique keys). -/
inductive Jv where
  | null : Jv
  | bool (b : Bool) : Jv
  | num (n : Int) : Jv
  | str (s : String) : Jv
  | arr (xs : List Jv) : Jv
  | obj (kvs : List (String × Jv)) : Jv

/-- Go map indexing `m[k]` on an object's key/value list (keys are unique in
a Go map; lookup returns the first binding). -/
def mget : List (String × Jv) → String → Option Jv
  | [], _ => none
  | (k, v) :: rest, key => if k = key then some v else mget rest key

/-- The Go idiom `if v, ok := m[k]; ok { if s, ok := v.(string); ok ... }`:
the string value at key `k`, or `""` when the key is absent or the value is
not a string.  The callers only ever compare the result against `""`, and Go
likewise skips absent keys, non-strings and empty strings alike. -/
def getStr (m : List (String × Jv)) (k : String) : String :=
  match mget m k with
  | some (.str s) => s
  | _ => ""

/-- The Go idiom `sub, ok := m["subject"].(map[string]any)`. -/
def subjectObj (m : List (String × Jv)) : Option (List (String × Jv)) :=
  match mget m "subject" with
  | some (.obj sub) => some sub
  | _ => none

/-- String value at key `k` of the nested `subject` object, or `""` when
`subject` is absent, not an object, or `k` yields no non-empty string. -/
def getStrSub (m : List (String × Jv)) (k : String) : String :=
  match subjectObj m with
  | some sub => getStr sub k
  | none => ""

/-- The loop `for _, k := range keys { if non-empty string at k, return it }`
from `pickTitle`: first key of `ks` holding a non-empty string value. -/
def firstStrKey (m : List (String × Jv)) : List String → String
  | [] => ""
  | k :: ks => if getStr m k ≠ "" then getStr m k else firstStrKey m ks

/-- Go `pickTitle`: direct keys `title`, `name`, `text`, `caption`; if none
yields a non-empty string, keys `title`, `name` under `subject`. -/
def pickTitle (m : List (String × Jv)) : String :=
  if firstStrKey m ["title", "name", "text", "caption"] ≠ "" then
    firstStrKey m ["title", "name", "text", "caption"]
  else
    match subjectObj m with
    | some sub => firstStrKey sub ["title", "name"]
    | none => ""

/-- Go `pickImage`: prefers `cover_image_url` at top level, then under
`subject`; only then falls back to `cover` and `image` at top level, and
finally `cover` and `image` under `subject`. -/
def pickImage (m : List (String × Jv)) : String :=
  if getStr m "cover_image_url" ≠ "" then getStr m "cover_image_url"
  else if getStrSub m "cover_image_url" ≠ "" then getStrSub m "cover_image_url"
  else if getStr m "cover" ≠ "" then getStr m "cover"
  else if getStr m "image" ≠ "" then getStr m "image"
  else if getStrSub m "cover" ≠ "" then getStrSub m "cover"
  else if getStrSub m "image" ≠ "" then getStrSub m "image"
  else ""

/-- Go `strings.HasPrefix s pre`. -/
def startsWithS (s pre : String) : Bool :=
  pre.toList.isPrefixOf s.toList

/-- Link normalization applied by `pickLink` to `url` / `subject.url`
values: absolute URLs verbatim, absolute paths prefixed with the host,
anything else prefixed with `https://{host}/`. -/
def urlify (host v : String) : String :=
  if startsWithS v "http://" || startsWithS v "https://" then v
  else if startsWithS v "/" then "https://" ++ host ++ v
  else "https://" ++ host ++ "/" ++ v

/-- Link construction applied by `pickLink` to `id` / `subject.id` values:
absolute URLs verbatim, absolute paths prefixed with the host, otherwise
`https://{host}/{typ}/{id}`. -/
def idToLink (host typ v : String) : String :=
  if startsWithS v "http://" || startsWithS v "https://" then v
  else if startsWithS v "/" then "https://" ++ host ++ v
  else "https://" ++ host ++ "/" ++ typ ++ "/" ++ v

/-- Go `pickLink`: `url`, then `subject.url`, then `id`, then `subject.id`. -/
def pickLink (m : List (String × Jv)) (host typ : String) : String :=
  if getStr m "url" ≠ "" then urlify host (getStr m "url")
  else if getStrSub m "url" ≠ "" then urlify host (getStrSub m "url")
  else if getStr m "id" ≠ "" then idToLink host typ (getStr m "id")
  else if getStrSub m "id" ≠ "" then idToLink host typ (getStrSub m "id")
  else ""

/-- Simplified view for README rendering (Go struct `entry`). -/
structure Entry where
  title : String
  image : String
  link : String
deriving DecidableEq

/-- The well-known array-holding keys probed by `toEntries`, in order. -/
def wellKnownArrKeys : List String := ["results", "items", "data", "objects", "list"]

/-- The loop `for _, k := range keys { if vv[k] is an array, take it }`:
first key of `ks` whose value in `kvs` is an array. -/
def firstArrKey (kvs : List (String × Jv)) : List String → Option (List Jv)
  | [] => none
  | k :: ks =>
    match mget kvs k with
    | some (.arr xs) => some xs
    | _ => firstArrKey kvs ks

/-- Insertion step for `sortStrs`. -/
def insertStr (x : String) : List String → List String
  | [] => [x]
  | y :: ys => if x ≤ y then x :: y :: ys else y :: insertStr x ys

/-- Go `sort.Strings`: ascending lexicographic sort (byte order coincides
with codepoint order for UTF-8). -/
def sortStrs (l : List String) : List String :=
  l.foldr insertStr []

/-- The array-locating part of `toEntries`: the document itself if it is an
array; else the first well-known array-valued key; else the first
array-valued key in sorted key order; else nothing. -/
def findArr : Jv → Option (List Jv)
  | .arr xs => some xs
  | .obj kvs =>
    match firstArrKey kvs wellKnownArrKeys with
    | some xs => some xs
    | none => firstArrKey kvs (sortStrs (kvs.map Prod.fst))
  | _ => none

/-- One iteration of the element loop of `toEntries`: an object element maps
to an entry unless title, image and link are all empty (`continue`). -/
def entryOf (m : List (String × Jv)) (host typ : String) : Option Entry :=
  if pickTitle m = "" ∧ pickImage m = "" ∧ pickLink m host typ = "" then none
  else some ⟨pickTitle m, pickImage m, pickLink m host typ⟩

/-- Go `toEntries data host typ` after `json.Unmarshal`: the argument is
`none` when unmarshalling failed (Go returns nil), otherwise the parsed
document.  Non-object array elements are skipped. -/
def toEntries (v : Option Jv) (host typ : String) : List Entry :=
  match v with
  | none => []
  | some doc =>
    match findArr doc with
    | none => []
    | some xs =>
      xs.filterMap fun it =>
        match it with
        | .obj m => entryOf m host typ
        | _ => none

/-- ASCII whitespace recognized by Go's `strings.TrimSpace` (Unicode space
classes beyond ASCII are elided; no input exercised here contains them). -/
def isSpaceGo (c : Char) : Bool :=
  c = ' ' || c = '\t' || c = '\n' || c = '\x0d' || c = '\x0b' || c = '\x0c'

/-- Go `strings.TrimSpace`. -/
def trimSpaceS (s : String) : String :=
  String.mk (((s.toList.dropWhile isSpaceGo).reverse.dropWhile isSpaceGo).reverse)

/-- Go `escapePipes`: `strings.ReplaceAll(s, "|", "\\|")` — the pattern is a
single character, so it is a per-character expansion. -/
def escapePipes (s : String) : String :=
  String.mk (s.toList.flatMap fun c => if c = '|' then ['\\', '|'] else [c])

/-- Whether `p` occurs as a contiguous substring of `s` (Go
`strings.Contains`). -/
def containsSub (p : List Char) : List Char → Bool
  | [] => p.isEmpty
  | c :: rest => p.isPrefixOf (c :: rest) || containsSub p rest

/-- Go `strings.Contains s pat`. -/
def goContains (s pat : String) : Bool :=
  containsSub pat.toList s.toList

/-- Go `strings.ToLower` (ASCII letters; non-ASCII case mappings elided). -/
def toLowerS (s : String) : String :=
  String.mk (s.toList.map Char.toLower)

/-- Go global `Types`: the supported trending categories. -/
def Types : List String :=
  ["book", "movie", "tv", "music", "game", "podcast", "collection"]

/-- Go `typeLabel`: pluralized row label for a category. -/
def typeLabel (t : String) : String :=
  if t = "book" then "books"
  else if t = "movie" then "movies"
  else if t = "tv" then "tv"
  else if t = "music" then "music"
  else if t = "game" then "games"
  else if t = "podcast" then "podcasts"
  else if t = "collection" then "collections"
  else t

/-- Go `renderCells`: a slice of `columns` cells; cell `i` renders entry `i`
when it exists (image made absolute when it is an absolute path, title
trimmed and pipe-escaped, the four link/image cases), else the empty
string. -/
def renderCells (ents : List Entry) (columns : Nat) (host typ : String) : List String :=
  (List.range columns).map fun i =>
    match ents[i]? with
    | some e =>
      let t := escapePipes (trimSpaceS e.title)
      let img := if startsWithS e.image "/" then "https://" ++ host ++ e.image else e.image
      let link := e.link
      if link ≠ "" then
        if img ≠ "" then "[![](" ++ img ++ ")<br/>" ++ t ++ "](" ++ link ++ ")"
        else "[" ++ t ++ "](" ++ link ++ ")"
      else
        if img ≠ "" then "![](" ++ img ++ ")<br/>" ++ t
        else t
    | none => ""

/-- Concatenation of a list of strings (Go's sequential
`strings.Builder.WriteString` calls). -/
def concatAll : List String → String
  | [] => ""
  | s :: rest => s ++ concatAll rest

/-- Number of item cells per README row (`itemCols` in `appendREADME`). -/
def itemCols : Nat := 19

/-- Total README table columns (`totalCols` in `appendREADME`). -/
def totalCols : Nat := 1 + itemCols

/-- The blank header row of the README table: `|` followed by `totalCols`
copies of six spaces and a closing `|`. -/
def headerLine : String :=
  "|" ++ concatAll (List.replicate totalCols "      |")

/-- The separator row of the README table: `|` followed by `totalCols`
copies of the dashes cell. -/
def sepLine : String :=
  "|" ++ concatAll (List.replicate totalCols " ---- |")

/-- Lookup in the accumulated `typeEntries` map (`typeEntries[t]`). -/
def lookupEnts : List (String × List Entry) → String → Option (List Entry)
  | [], _ => none
  | (k, v) :: rest, key => if k = key then some v else lookupEnts rest key

/-- Go `ents, ok := typeEntries[t]; !ok || len(ents) == 0` negated: whether
category `t` has at least one accumulated entry. -/
def rowPredB (te : List (String × List Entry)) (t : String) : Bool :=
  match lookupEnts te t with
  | some es => !es.isEmpty
  | none => false

/-- Entries for a category (empty when absent; only read when present). -/
def entsFor (te : List (String × List Entry)) (t : String) : List Entry :=
  (lookupEnts te t).getD []

/-- One README table row: label cell then the 19 item cells, exactly as the
builder writes them. -/
def rowLine (t : String) (ents : List Entry) (host : String) : String :=
  "|" ++ " " ++ escapePipes (typeLabel t) ++ " |" ++
    concatAll ((renderCells ents itemCols host t).map fun c => " " ++ c ++ " |")

/-- The lines of one appended README section, in order: the title block only
when the file does not yet exist (`os.Stat` → `ErrNotExist`), then the
`##` timestamp heading, the blank header row, the separator row, one row
per category of the fixed `Types` order that has entries, and the blank
line the final `WriteString("\n")` produces.  The Go builder emits exactly
these lines each terminated by a newline. -/
def sectionLines (host ts : String) (te : List (String × List Entry)) (isNew : Bool) :
    List String :=
  (if isNew then ["# NeoDB Trending History for " ++ host, ""] else []) ++
    (["## " ++ ts, headerLine, sepLine] ++
      ((Types.filter fun t => rowPredB te t).map fun t => rowLine t (entsFor te t) host) ++
      [""])

/-- Lines joined with terminating newlines: the exact string the builder
accumulates. -/
def joinNL : List String → String
  | [] => ""
  | l :: rest => l ++ "\n" ++ joinNL rest

/-- The full appended text of one README section. -/
def sectionText (host ts : String) (te : List (String × List Entry)) (isNew : Bool) : String :=
  joinNL (sectionLines host ts te isNew)

/-- `appendREADME` as a transformation of the README file contents: `old` is
`none` when the file does not yet exist; the open with `O_APPEND` writes the
section after the existing contents. -/
def appendReadmeContent (old : Option String) (host ts : String)
    (te : List (String × List Entry)) : String :=
  match old with
  | some c => c ++ sectionText host ts te false
  | none => sectionText host ts te true

/-- First non-empty string of a list (spec-style formulation used to state
the amended image-selection order). -/
def firstNonEmptyStr : List String → String
  | [] => ""
  | s :: rest => if s ≠ "" then s else firstNonEmptyStr rest

/-- If none of the keys `ks` holds an array value in `kvs`, the well-known
key probe finds nothing. -/
theorem firstArrKey_eq_none (kvs : List (String × Jv)) :
    ∀ ks : List String, (∀ k ∈ ks, ∀ xs, mget kvs k ≠ some (.arr xs)) →
      firstArrKey kvs ks = none
  | [], _ => rfl
  | k :: ks, h => by
    have hk := h k (List.mem_cons_self _ _)
    have hrest := firstArrKey_eq_none kvs ks fun k' hk' xs => h k' (List.mem_cons_of_mem _ hk') xs
    cases hm : mget kvs k with
    | none => simp [firstArrKey, hm, hrest]
    | some v =>
      cases v with
      | null => simp [firstArrKey, hm, hrest]
      | bool b => simp [firstArrKey, hm, hrest]
      | num n => simp [firstArrKey, hm, hrest]
      | str s => simp [firstArrKey, hm, hrest]
      | arr xs => exact absurd hm (hk xs)
      | obj o => simp [firstArrKey, hm, hrest]

/-- C1 counterexample: an element whose top-level `cover` is `"A"` and whose
`subject.cover_image_url` is `"B"` yields `"B"`, not the top-level `cover`
value `"A"` required by the claim — `pickImage` checks
`subject.cover_image_url` before the top-level `cover`. -/
theorem pickImage_top_cover_not_preferred :
    pickImage [("cover", .str "A"), ("subject", .obj [("cover_image_url", .str "B")])] = "B" ∧
    pickImage [("cover", .str "A"), ("subject", .obj [("cover_image_url", .str "B")])] ≠ "A" := by
  decide

/-- C1 amended: the extracted image is the first non-empty string value in
the order top-level `cover_image_url`, `subject.cover_image_url`, top-level
`cover`, top-level `image`, `subject.cover`, `subject.image`. -/
theorem pickImage_order_amended (m : List (String × Jv)) :
    pickImage m =
      firstNonEmptyStr [getStr m "cover_image_url", getStrSub m "cover_image_url",
        getStr m "cover", getStr m "image", getStrSub m "cover", getStrSub m "image"] := by
  simp only [pickImage, firstNonEmptyStr]

/-- If every key of `pre` misses (no array value) and `k` holds an array,
the ordered probe over `pre ++ k :: post` yields `k`'s array: first match
wins, in list order. -/
theorem firstArrKey_append (kvs : List (String × Jv)) (k : String) (xs : List Jv)
    (hk : mget kvs k = some (.arr xs)) :
    ∀ pre : List String, (∀ k' ∈ pre, ∀ ys, mget kvs k' ≠ some (.arr ys)) →
      ∀ post : List String, firstArrKey kvs (pre ++ k :: post) = some xs
  | [], _, post => by simp [firstArrKey, hk]
  | k' :: pre, h, post => by
    have hk' := h k' (List.mem_cons_self _ _)
    have ih := firstArrKey_append kvs k xs hk pre
      (fun a ha ys => h a (List.mem_cons_of_mem _ ha) ys) post
    cases hm : mget kvs k' with
    | none => simpa [firstArrKey, hm] using ih
    | some v =>
      cases v with
      | null => simpa [firstArrKey, hm] using ih
      | bool b => simpa [firstArrKey, hm] using ih
      | num n => simpa [firstArrKey, hm] using ih
      | str s => simpa [firstArrKey, hm] using ih
      | arr ys => exact absurd hm (hk' ys)
      | obj o => simpa [firstArrKey, hm] using ih

/-- C2: array location precedence — the document itself when it is an
array; else the first array-valued key among `results`, `items`, `data`,
`objects`, `list`, in exactly that order (for any split of the well-known
key list into `pre ++ k :: post`, if no key of `pre` is array-valued and
`k` is, the probe returns `k`'s array, regardless of every other key and of
the sorted fallback); the sorted-key fallback is consulted only when none
of the five keys is array-valued — and the concrete example payload
`{"results":[{"title":"X","cover_image_url":"/c.jpg","id":"42"}]}` for
host `h`, category `book` extracts exactly one entry with title `X`, the
verbatim relative image `/c.jpg`, and link `https://h/book/42` built from
the id. -/
theorem toEntries_locate_and_example :
    (∀ xs : List Jv, findArr (.arr xs) = some xs) ∧
    (∀ (kvs : List (String × Jv)) (pre post : List String) (k : String) (xs : List Jv),
        wellKnownArrKeys = pre ++ k :: post →
        (∀ k' ∈ pre, ∀ ys, mget kvs k' ≠ some (.arr ys)) →
        mget kvs k = some (.arr xs) →
        findArr (.obj kvs) = some xs) ∧
    (∀ (kvs : List (String × Jv)) (xs : List Jv),
        mget kvs "results" = some (.arr xs) → findArr (.obj kvs) = some xs) ∧
    (∀ kvs : List (String × Jv),
        (∀ k ∈ wellKnownArrKeys, ∀ xs, mget kvs k ≠ some (.arr xs)) →
        findArr (.obj kvs) = firstArrKey kvs (sortStrs (kvs.map Prod.fst))) ∧
    toEntries (some (.obj [("results", .arr
        [.obj [("title", .str "X"), ("cover_image_url", .str "/c.jpg"), ("id", .str "42")]])]))
        "h" "book"
      = [⟨"X", "/c.jpg", "https://h/book/42"⟩] := by
  refine ⟨fun xs => rfl, ?_, ?_, ?_, by decide⟩
  · intro kvs pre post k xs hsplit hpre hk
    have hfirst : firstArrKey kvs wellKnownArrKeys = some xs := by
      rw [hsplit]
      exact firstArrKey_append kvs k xs hk pre hpre post
    simp [findArr, hfirst]
  · intro kvs xs h
    simp [findArr, wellKnownArrKeys, firstArrKey, h]
  · intro kvs h
    have hnone : firstArrKey kvs wellKnownArrKeys = none := firstArrKey_eq_none kvs _ h
    simp [findArr, hnone]

/-- Witness for the hypotheses of the C2 theorem at concrete inputs: the
`results`-wins case; `data` winning once `results` misses and `items`
holds a non-array, even though key `aaa` sorts first and also holds an
array (so a well-known hit preempts the sorted fallback); and the fallback
once no well-known key is array-valued. -/
theorem toEntries_locate_and_example_witness :
    findArr (.obj [("results", .arr [Jv.num 1])]) = some [Jv.num 1] ∧
    findArr (.obj [("items", .str "no"), ("data", .arr [Jv.num 3]), ("aaa", .arr [Jv.num 9])])
      = some [Jv.num 3] ∧
    findArr (.obj [("b", .arr [Jv.num 2]), ("a", .str "x")])
      = firstArrKey [("b", .arr [Jv.num 2]), ("a", .str "x")] (sortStrs ["b", "a"]) := by
  refine ⟨?_, ?_, ?_⟩
  · exact toEntries_locate_and_example.2.2.1 _ [Jv.num 1] rfl
  · exact toEntries_locate_and_example.2.1
      [("items", .str "no"), ("data", .arr [Jv.num 3]), ("aaa", .arr [Jv.num 9])]
      ["results", "items"] ["objects", "list"] "data" [Jv.num 3] rfl
      (by intro k hk; fin_cases hk <;> intro ys h <;> simp [mget] at h) rfl
  · exact toEntries_locate_and_example.2.2.2.1 [("b", .arr [Jv.num 2]), ("a", .str "x")]
      (by intro k hk; fin_cases hk <;> exact fun xs h => Option.noConfusion h)

/-- A category has a README row exactly when its accumulated entry list is
non-empty. -/
theorem rowPredB_iff_entsFor (te : List (String × List Entry)) (t : String) :
    rowPredB te t = true ↔ entsFor te t ≠ [] := by
  unfold rowPredB entsFor
  cases lookupEnts te t with
  | none => simp
  | some es => simp [List.isEmpty_iff]

/-- C3: the rendered cell for entry `e` (present at index `i`) is, with `T`
the pipe-escaped trimmed title and `I` the image absolutized when it starts
with `/`: `[![](I)<br/>T](L)` when link and image are both non-empty,
`[T](L)` when only the link is, `![](I)<br/>T` when only the image is, and
`T` when both are empty. -/
theorem renderCells_cell_format (ents : List Entry) (host typ : String) (i : Nat) (e : Entry)
    (T I : String) (hi : i < itemCols) (he : ents[i]? = some e)
    (hT : T = escapePipes (trimSpaceS e.title))
    (hI : I = if startsWithS e.image "/" then "https://" ++ host ++ e.image else e.image) :
    (e.link ≠ "" → I ≠ "" →
      (renderCells ents itemCols host typ)[i]?
        = some ("[![](" ++ I ++ ")<br/>" ++ T ++ "](" ++ e.link ++ ")")) ∧
    (e.link ≠ "" → I = "" →
      (renderCells ents itemCols host typ)[i]? = some ("[" ++ T ++ "](" ++ e.link ++ ")")) ∧
    (e.link = "" → I ≠ "" →
      (renderCells ents itemCols host typ)[i]? = some ("![](" ++ I ++ ")<br/>" ++ T)) ∧
    (e.link = "" → I = "" →
      (renderCells ents itemCols host typ)[i]? = some T) := by
  subst hT hI
  refine ⟨?_, ?_, ?_, ?_⟩ <;> intro h1 h2 <;>
    simp [renderCells, List.getElem?_map, List.getElem?_range hi, he, h1, h2]

/-- Witness for the C3 theorem: all four cell shapes at concrete entries. -/
theorem renderCells_cell_format_witness :
    (renderCells [⟨" A|b ", "/i.png", "https://x/y"⟩] itemCols "h" "book")[0]?
      = some "[![](https://h/i.png)<br/>A\\|b](https://x/y)" ∧
    (renderCells [⟨"t", "", "https://x/y"⟩] itemCols "h" "book")[0]?
      = some "[t](https://x/y)" ∧
    (renderCells [⟨"t", "https://img", ""⟩] itemCols "h" "book")[0]?
      = some "![](https://img)<br/>t" ∧
    (renderCells [⟨"t", "", ""⟩] itemCols "h" "book")[0]? = some "t" := by
  refine ⟨?_, ?_, ?_, ?_⟩
  · exact (renderCells_cell_format [⟨" A|b ", "/i.png", "https://x/y"⟩] "h" "book" 0
      ⟨" A|b ", "/i.png", "https://x/y"⟩ _ _ (by decide) rfl rfl rfl).1
      (by decide) (by decide)
  · exact (renderCells_cell_format [⟨"t", "", "https://x/y"⟩] "h" "book" 0
      ⟨"t", "", "https://x/y"⟩ _ _ (by decide) rfl rfl rfl).2.1 (by decide) (by decide)
  · exact (renderCells_cell_format [⟨"t", "https://img", ""⟩] "h" "book" 0
      ⟨"t", "https://img", ""⟩ _ _ (by decide) rfl rfl rfl).2.2.1 rfl (by decide)
  · exact (renderCells_cell_format [⟨"t", "", ""⟩] "h" "book" 0
      ⟨"t", "", ""⟩ _ _ (by decide) rfl rfl rfl).2.2.2 rfl rfl

/-- C4: an appended section (for an existing file) is the `##` timestamp
heading, a blank header row and a separator row of `1 + 19` cells carrying
no semantic text, then one row per category with at least one entry in the
fixed `Types` order; each row has exactly 19 item cells, the cell at an
index beyond the entry count is empty (so entries beyond the 19th are
dropped), and a category with an empty entry list never yields a row. -/
theorem appendREADME_section_structure (host ts : String) (te : List (String × List Entry)) :
    (sectionLines host ts te false).head? = some ("## " ++ ts) ∧
    sectionLines host ts te false
      = ["## " ++ ts, headerLine, sepLine] ++
        ((Types.filter fun t => rowPredB te t).map fun t => rowLine t (entsFor te t) host) ++
        [""] ∧
    headerLine.toList.count '|' = totalCols + 1 ∧
    (headerLine.toList.all fun c => c = '|' || c = ' ') = true ∧
    sepLine.toList.count '|' = totalCols + 1 ∧
    (sepLine.toList.all fun c => c = '|' || c = ' ' || c = '-') = true ∧
    (Types.filter fun t => rowPredB te t).Sublist Types ∧
    (∀ t, entsFor te t = [] → t ∉ Types.filter fun t' => rowPredB te t') ∧
    (∀ ents t, (renderCells ents itemCols host t).length = itemCols) ∧
    (∀ ents t i, i < itemCols → ents.length ≤ i →
      (renderCells ents itemCols host t)[i]? = some "") := by
  refine ⟨rfl, rfl, by decide, by decide, by decide, by decide, List.filter_sublist _,
    ?_, ?_, ?_⟩
  · intro t hempty hmem
    have h := (List.mem_filter.mp hmem).2
    exact (rowPredB_iff_entsFor te t).mp h hempty
  · intro ents t
    simp [renderCells]
  · intro ents t i hi hle
    simp [renderCells, List.getElem?_map, List.getElem?_range hi, List.getElem?_eq_none hle]

/-- Witness for the C4 theorem's hypothesis-bearing conjuncts at concrete
inputs. -/
theorem appendREADME_section_structure_witness :
    ("book" ∉ Types.filter fun t' => rowPredB [] t') ∧
    (renderCells [] itemCols "h" "book")[0]? = some "" := by
  obtain ⟨h1, h2, h3, h4, h5, h6, h7, h8, h9, h10⟩ :=
    appendREADME_section_structure "h" "T" []
  exact ⟨h8 "book" rfl, h10 [] "book" 0 (by decide) (by decide)⟩

/-- C8 counterexample: on a first append for host `neodb.social` the emitted
title line is plain text naming the host; it contains no `[` and no `](`,
hence no Markdown link to the host's homepage. -/
theorem readme_title_no_link_counterexample :
    (sectionLines "neodb.social" "2024-01-01T00:00:00Z" [] true).head?
      = some "# NeoDB Trending History for neodb.social" ∧
    goContains "# NeoDB Trending History for neodb.social" "[" = false ∧
    goContains "# NeoDB Trending History for neodb.social" "](" = false := by
  decide

/-- C8 amended: the first append (file absent) emits the plain-text title
line naming the host (without any hyperlink) followed by a blank line and
the section; every later append leaves the existing content untouched and
appends a section that starts directly with the `##` timestamp heading. -/
theorem appendREADME_title_amended (old : String) (host ts : String)
    (te : List (String × List Entry)) :
    appendReadmeContent (some old) host ts te = old ++ sectionText host ts te false ∧
    appendReadmeContent none host ts te
      = "# NeoDB Trending History for " ++ host ++ "\n" ++ ("\n" ++ sectionText host ts te false) ∧
    (sectionLines host ts te false).head? = some ("## " ++ ts) := by
  refine ⟨rfl, ?_, rfl⟩
  simp [appendReadmeContent, sectionText, sectionLines, joinNL, String.append_assoc]

/-- Go `fmt.Sprintf` with a `%0{w}d` verb on a non-negative value:
zero-padded decimal. -/
def padZero (w n : Nat) : String :=
  String.mk (List.replicate (w - (toString n).length) '0') ++ toString n

/-- Go `filepath.Join` on non-empty relative components: `/`-separated
concatenation (`Clean` normalization is irrelevant for the slash-free
components produced here and is elided). -/
def goJoin : List String → String
  | [] => ""
  | [p] => p
  | p :: q :: rest => p ++ "/" ++ goJoin (q :: rest)

/-- The per-day directory every artifact of `FetchAll` is written into:
`filepath.Join(root, dash, %04d year, %02d month, %02d day)`. -/
def dayDir (root dash : String) (y m d : Nat) : String :=
  goJoin [root, dash, padZero 4 y, padZero 2 m, padZero 2 d]

/-- Raw snapshot filename from `FetchAll`:
`fmt.Sprintf("%s-%s-%s.json", ts, dash, t)`. -/
def snapshotFileName (ts dash t : String) : String :=
  ts ++ "-" ++ dash ++ "-" ++ t ++ ".json"

/-- Full path of a raw per-category snapshot. -/
def snapshotPath (root dash : String) (y m d : Nat) (ts t : String) : String :=
  goJoin [dayDir root dash y m d, snapshotFileName ts dash t]

/-- Summary filename from `writeSummaryJSON`:
`fmt.Sprintf("%s-%s.json", ts, dash)`. -/
def summaryFileName (ts dash : String) : String :=
  ts ++ "-" ++ dash ++ ".json"

/-- Full path of the per-host summary file. -/
def summaryPath (root dash : String) (y m d : Nat) (ts : String) : String :=
  goJoin [dayDir root dash y m d, summaryFileName ts dash]

/-- Full path of the per-day README appended by `appendREADME`. -/
def readmePath (root dash : String) (y m d : Nat) : String :=
  goJoin [dayDir root dash y m d, "README.md"]

/-- C5 counterexample: at concrete inputs the snapshot path has no
time-of-day subfolder below the day directory (5 slashes, i.e. the file
sits directly in the day directory) and neither the snapshot nor the
summary filename contains the literal `trending`. -/
theorem snapshotPath_counterexample :
    snapshotPath "out" "neodb-social" 2024 5 6 "20240506T120000Z" "book"
      = "out/neodb-social/2024/05/06/20240506T120000Z-neodb-social-book.json" ∧
    goContains (snapshotFileName "20240506T120000Z" "neodb-social" "book") "trending" = false ∧
    goContains (summaryFileName "20240506T120000Z" "neodb-social") "trending" = false ∧
    (snapshotPath "out" "neodb-social" 2024 5 6 "20240506T120000Z" "book").toList.count '/' = 5 := by
  decide

/-- C5 amended: the raw payload is written at
`{root}/{slug}/{yyyy}/{mm}/{dd}/{timestamp}-{slug}-{category}.json` and the
summary at `{root}/{slug}/{yyyy}/{mm}/{dd}/{timestamp}-{slug}.json`; both
sit directly in the same day directory as `README.md`, with no time-of-day
subfolder and no `trending` component in the name templates. -/
theorem artifact_paths_amended (root dash : String) (y m d : Nat) (ts t : String) :
    snapshotPath root dash y m d ts t
      = dayDir root dash y m d ++ "/" ++ (ts ++ "-" ++ dash ++ "-" ++ t ++ ".json") ∧
    summaryPath root dash y m d ts
      = dayDir root dash y m d ++ "/" ++ (ts ++ "-" ++ dash ++ ".json") ∧
    readmePath root dash y m d = dayDir root dash y m d ++ "/" ++ "README.md" ∧
    dayDir root dash y m d
      = root ++ "/" ++ dash ++ "/" ++ padZero 4 y ++ "/" ++ padZero 2 m ++ "/" ++ padZero 2 d := by
  refine ⟨rfl, rfl, rfl, ?_⟩
  simp [dayDir, goJoin, String.append_assoc]

/-- Character class of the Go regexp `[a-z0-9.-]`. -/
def inHostClass (c : Char) : Bool :=
  ('a' ≤ c && c ≤ 'z') || ('0' ≤ c && c ≤ '9') || c = '.' || c = '-'

/-- A character list matching the whole Go regexp `[a-z0-9.-]+(:[0-9]+)?`. -/
def matchesHostPat (cs : List Char) : Prop :=
  ∃ core port, cs = core ++ port ∧ core ≠ [] ∧ (∀ c ∈ core, inHostClass c = true) ∧
    (port = [] ∨ ∃ ds, port = ':' :: ds ∧ ds ≠ [] ∧ ∀ c ∈ ds, c.isDigit = true)

/-- Go `hostAllowed.MatchString h`: the unanchored search succeeds when some
contiguous substring of `h` matches the pattern. -/
def regexFindsMatch (h : String) : Prop :=
  ∃ pre mid post, h.toList = pre ++ mid ++ post ∧ matchesHostPat mid

/-- Executable form of the unanchored `MatchString`: since the mandatory
part of the pattern is one-or-more of a character class, a match exists
exactly when the string contains one character of the class. -/
def hostAllowedMatchString (h : String) : Bool :=
  h.toList.any inHostClass

/-- The executable form agrees with the regexp search semantics. -/
theorem regexFindsMatch_iff (h : String) :
    regexFindsMatch h ↔ hostAllowedMatchString h = true := by
  constructor
  · rintro ⟨pre, mid, post, heq, core, port, hsplit, hne, hall, -⟩
    obtain ⟨c, core', rfl⟩ := List.exists_cons_of_ne_nil hne
    have hc : c ∈ h.toList := by
      rw [heq, hsplit]
      simp
    exact List.any_eq_true.mpr ⟨c, hc, hall c (List.mem_cons_self _ _)⟩
  · intro hany
    obtain ⟨c, hc, hclass⟩ := List.any_eq_true.mp hany
    obtain ⟨pre, post, hsplit⟩ := List.append_of_mem hc
    exact ⟨pre, [c], post, by rw [hsplit]; simp, [c], [], rfl, by simp,
      by simpa using hclass, Or.inl rfl⟩

/-- Go `sanitizeHost`: lowercase, trim, reject empty input or input
containing `/`, a space, or `http`, then apply the `hostAllowed` regexp
test.  Note the regexp is used unanchored via `MatchString`. -/
def sanitizeHost (s : String) : Except String String :=
  let h := trimSpaceS (toLowerS s)
  if h = "" then .error "empty host"
  else if goContains h "/" || goContains h " " || goContains h "http" then
    .error "invalid host (use domain only)"
  else if !hostAllowedMatchString h then .error "invalid characters in host"
  else .ok h

/-- C6: contrary to the claim, `"a_b"` is accepted — the `hostAllowed`
regexp is unanchored, so `MatchString` succeeds as soon as one allowed
character occurs anywhere, and the `_` is never rejected.  The normal-case
example `"NeoDB.Social" → "neodb.social"` does hold. -/
theorem sanitizeHost_underscore_accepted :
    sanitizeHost "a_b" = .ok "a_b" ∧
    sanitizeHost "NeoDB.Social" = .ok "neodb.social" ∧
    sanitizeHost "bad/host" = .error "invalid host (use domain only)" := by
  exact ⟨rfl, rfl, rfl⟩

/-- The per-character keep filter of `dashifyHost`: letters, digits and
dashes survive, everything else becomes a dash. -/
def keepDashAlnum (c : Char) : Char :=
  if ('a' ≤ c && c ≤ 'z') || ('0' ≤ c && c ≤ '9') || c = '-' then c else '-'

/-- Go `strings.ReplaceAll(out, "--", "-")`: one left-to-right scan that
replaces each non-overlapping occurrence of two dashes by one. -/
def collapseOnce : List Char → List Char
  | '-' :: '-' :: rest => '-' :: collapseOnce rest
  | c :: rest => c :: collapseOnce rest
  | [] => []

/-- Go `strings.Trim(out, "-")`. -/
def trimDashes (cs : List Char) : List Char :=
  ((cs.dropWhile fun c => c = '-').reverse.dropWhile fun c => c = '-').reverse

/-- Go `dashifyHost`: dots and colons to dashes, keep `[a-z0-9-]` (others
become dashes), trim boundary dashes, then one `"--" → "-"` replacement
pass. -/
def dashifyHost (host : String) : String :=
  let s1 := host.toList.map fun c => if c = '.' then '-' else c
  let s2 := s1.map fun c => if c = ':' then '-' else c
  let s3 := s2.map keepDashAlnum
  String.mk (collapseOnce (trimDashes s3))

/-- C7: the documented examples hold, but a run of four dots is only halved
by the single replacement pass — `dashifyHost "a....b" = "a--b"` still
contains `--`, contradicting the claim that every dash run collapses to a
single dash. -/
theorem dashifyHost_run_of_dots :
    dashifyHost "a....b" = "a--b" ∧
    dashifyHost "a..b" = "a-b" ∧
    dashifyHost "neodb.social" = "neodb-social" ∧
    goContains (dashifyHost "a....b") "--" = true := by
  decide

/-- Per-host accumulator of one `FetchAll` pass: the raw snapshots written,
the `typePayloads` map feeding the summary, and the `typeEntries` map
feeding the README (association lists in configured-category order). -/
structure HostRun where
  snaps : List (String × String)
  payloads : List (String × String)
  typeEnts : List (String × List Entry)
deriving DecidableEq

/-- The per-host loop body of `FetchAll` over the configured category list:
`fetch t` is `none` on a request-build or transport error and
`some (status, body)` otherwise; a non-200 status is only warned about and
skipped; on 200 the body is snapshotted, recorded for the summary, and its
extracted entries recorded for the README when non-empty.  `parse` stands
for `json.Unmarshal` inside `toEntries`. -/
def runHost (fetch : String → Option (Nat × String)) (parse : String → Option Jv)
    (host : String) : List String → HostRun
  | [] => ⟨[], [], []⟩
  | t :: rest =>
    let r := runHost fetch parse host rest
    match fetch t with
    | none => r
    | some (st, body) =>
      if st = 200 then
        let ents := toEntries (parse body) host t
        { snaps := (t, body) :: r.snaps
          payloads := (t, body) :: r.payloads
          typeEnts := if ents.isEmpty then r.typeEnts else (t, ents) :: r.typeEnts }
      else r

/-- The categories that get a README row: `appendREADME` iterates the fixed
built-in `Types` list, not the configured one. -/
def readmeRowTypes (r : HostRun) : List String :=
  Types.filter fun t => rowPredB r.typeEnts t

/-- A category whose fetch yields status 200 contributes its body to both
the snapshot writes and the summary payload map. -/
theorem runHost_mem_of_200 (fetch : String → Option (Nat × String))
    (parse : String → Option Jv) (host t : String) (b : String)
    (hf : fetch t = some (200, b)) :
    ∀ cfgTypes : List String, t ∈ cfgTypes →
      (t, b) ∈ (runHost fetch parse host cfgTypes).snaps ∧
      (t, b) ∈ (runHost fetch parse host cfgTypes).payloads
  | t' :: rest, hmem => by
    rw [runHost]
    rcases List.mem_cons.mp hmem with rfl | hmem'
    · simp [hf]
    · have ih := runHost_mem_of_200 fetch parse host t b hf rest hmem'
      cases hft : fetch t' with
      | none => exact ih
      | some p =>
        obtain ⟨st', b'⟩ := p
        by_cases h200 : st' = 200
        · simp only [h200, if_pos rfl]
          exact ⟨List.mem_cons_of_mem _ ih.1, List.mem_cons_of_mem _ ih.2⟩
        · simp only [if_neg h200]
          exact ih

/-- A category whose fetch yields status 200 and whose payload extracts a
non-empty entry list is recorded in `typeEntries`. -/
theorem runHost_mem_ents_of_200 (fetch : String → Option (Nat × String))
    (parse : String → Option Jv) (host t : String) (b : String)
    (hf : fetch t = some (200, b)) (hne : toEntries (parse b) host t ≠ []) :
    ∀ cfgTypes : List String, t ∈ cfgTypes →
      (t, toEntries (parse b) host t) ∈ (runHost fetch parse host cfgTypes).typeEnts
  | t' :: rest, hmem => by
    rw [runHost]
    rcases List.mem_cons.mp hmem with rfl | hmem'
    · simp [hf, List.isEmpty_iff, hne]
    · have ih := runHost_mem_ents_of_200 fetch parse host t b hf hne rest hmem'
      cases hft : fetch t' with
      | none => exact ih
      | some p =>
        obtain ⟨st', b'⟩ := p
        by_cases h200 : st' = 200
        · simp only [h200, if_pos rfl]
          by_cases he : (toEntries (parse b') host t').isEmpty
          · simpa [he] using ih
          · simp only [he, if_neg]
            exact List.mem_cons_of_mem _ ih
        · simp only [if_neg h200]
          exact ih

/-- A category whose fetch yields a non-200 status contributes nothing: no
snapshot, no summary payload, no README entries. -/
theorem runHost_skip_of_non200 (fetch : String → Option (Nat × String))
    (parse : String → Option Jv) (host t : String) (st : Nat) (b : String)
    (hf : fetch t = some (st, b)) (hne : st ≠ 200) :
    ∀ cfgTypes : List String,
      t ∉ (runHost fetch parse host cfgTypes).snaps.map Prod.fst ∧
      t ∉ (runHost fetch parse host cfgTypes).payloads.map Prod.fst ∧
      t ∉ (runHost fetch parse host cfgTypes).typeEnts.map Prod.fst
  | [] => by simp [runHost]
  | t' :: rest => by
    have ih := runHost_skip_of_non200 fetch parse host t st b hf hne rest
    rw [runHost]
    by_cases ht : t' = t
    · subst ht
      simp only [hf, if_neg hne]
      exact ih
    · cases hft : fetch t' with
      | none => exact ih
      | some p =>
        obtain ⟨st', b'⟩ := p
        by_cases h200 : st' = 200
        · simp only [h200, if_pos rfl]
          refine ⟨?_, ?_, ?_⟩
          · simpa [Ne.symm ht] using ih.1
          · simpa [Ne.symm ht] using ih.2.1
          · by_cases he : (toEntries (parse b') host t').isEmpty
            · simpa [he] using ih.2.2
            · simp only [he, if_neg]
              simpa [Ne.symm ht] using ih.2.2
        · simp only [if_neg h200]
          exact ih

/-- C9 counterexample: a response with status 201 is discarded — the code
tests `StatusCode != http.StatusOK`, i.e. exactly 200, not 2xx — while a 200
response with the same body is snapshotted and recorded. -/
theorem status201_skipped_counterexample :
    runHost (fun _ => some (201, "x")) (fun _ => none) "h" ["book"] = ⟨[], [], []⟩ ∧
    runHost (fun _ => some (200, "x")) (fun _ => none) "h" ["book"]
      = ⟨[("book", "x")], [("book", "x")], []⟩ := by
  exact ⟨rfl, rfl⟩

/-- C9 amended: a fetched response body is read, persisted and processed if
and only if its status code is exactly 200; every other status (including
201, 204 and 500) is skipped for snapshot, summary and README purposes
without aborting the remaining categories. -/
theorem runHost_only_200 (fetch : String → Option (Nat × String)) (parse : String → Option Jv)
    (host t : String) (st : Nat) (b : String) (cfgTypes : List String)
    (hf : fetch t = some (st, b)) :
    (st = 200 → t ∈ cfgTypes →
      (t, b) ∈ (runHost fetch parse host cfgTypes).snaps ∧
      (t, b) ∈ (runHost fetch parse host cfgTypes).payloads) ∧
    (st ≠ 200 →
      t ∉ (runHost fetch parse host cfgTypes).snaps.map Prod.fst ∧
      t ∉ (runHost fetch parse host cfgTypes).payloads.map Prod.fst ∧
      t ∉ (runHost fetch parse host cfgTypes).typeEnts.map Prod.fst) := by
  constructor
  · intro h200 hmem
    subst h200
    exact runHost_mem_of_200 fetch parse host t b hf cfgTypes hmem
  · intro hne
    exact runHost_skip_of_non200 fetch parse host t st b hf hne cfgTypes

/-- Witness for the C9 theorem: a 200 response is kept, a 404 one is not. -/
theorem runHost_only_200_witness :
    ("book", "x") ∈ (runHost (fun _ => some (200, "x")) (fun _ => none) "h" ["book"]).snaps ∧
    "movie" ∉ (runHost (fun _ => some (404, "x")) (fun _ => none) "h"
        ["movie"]).snaps.map Prod.fst := by
  constructor
  · exact ((runHost_only_200 (fun _ => some (200, "x")) (fun _ => none) "h" "book" 200 "x"
      ["book"] rfl).1 rfl (by decide)).1
  · exact ((runHost_only_200 (fun _ => some (404, "x")) (fun _ => none) "h" "movie" 404 "x"
      ["movie"] rfl).2 (by decide)).1

/-- C10: a configured category outside the built-in `Types` set is fetched,
snapshotted and included in the summary payloads exactly like a built-in
one, and its extracted entries are even recorded in `typeEntries`, but the
README row loop iterates only the fixed `Types` list, so such a category
never yields a table row. -/
theorem custom_category_no_readme_row (fetch : String → Option (Nat × String))
    (parse : String → Option Jv) (host t b : String) (cfgTypes : List String)
    (hmem : t ∈ cfgTypes) (hf : fetch t = some (200, b)) :
    (t, b) ∈ (runHost fetch parse host cfgTypes).snaps ∧
    (t, b) ∈ (runHost fetch parse host cfgTypes).payloads ∧
    (toEntries (parse b) host t ≠ [] →
      (t, toEntries (parse b) host t) ∈ (runHost fetch parse host cfgTypes).typeEnts) ∧
    (readmeRowTypes (runHost fetch parse host cfgTypes)).Sublist Types ∧
    (t ∉ Types → t ∉ readmeRowTypes (runHost fetch parse host cfgTypes)) := by
  obtain ⟨hs, hp⟩ := runHost_mem_of_200 fetch parse host t b hf cfgTypes hmem
  refine ⟨hs, hp, ?_, List.filter_sublist _, ?_⟩
  · intro hne
    exact runHost_mem_ents_of_200 fetch parse host t b hf hne cfgTypes hmem
  · intro hnot hmem'
    exact hnot (List.mem_of_mem_filter hmem')

/-- Witness for the C10 theorem: configured category `anime`, absent from
the built-in list, is snapshotted, summarised and yields entries, yet gets
no README row. -/
theorem custom_category_no_readme_row_witness :
    ("anime", "raw") ∈ (runHost (fun _ => some (200, "raw"))
      (fun _ => some (.obj [("results", .arr [.obj [("title", .str "T"), ("id", .str "1")]])]))
      "h" ["anime"]).snaps ∧
    ("anime", toEntries
        (some (.obj [("results", .arr [.obj [("title", .str "T"), ("id", .str "1")]])]))
        "h" "anime")
      ∈ (runHost (fun _ => some (200, "raw"))
      (fun _ => some (.obj [("results", .arr [.obj [("title", .str "T"), ("id", .str "1")]])]))
      "h" ["anime"]).typeEnts ∧
    "anime" ∉ readmeRowTypes (runHost (fun _ => some (200, "raw"))
      (fun _ => some (.obj [("results", .arr [.obj [("title", .str "T"), ("id", .str "1")]])]))
      "h" ["anime"]) := by
  obtain ⟨h1, h2, h3, h4, h5⟩ := custom_category_no_readme_row (fun _ => some (200, "raw"))
    (fun _ => some (.obj [("results", .arr [.obj [("title", .str "T"), ("id", .str "1")]])]))
    "h" "anime" "raw" ["anime"] (by decide) rfl
  exact ⟨h1, h3 (by decide), h5 (by decide)⟩

end Trending
